import Mathlib

/-!
# Loggen — Post & Meeting Lifecycle Engine, shallow embedding

This file embeds the lifecycle logic of the Loggen server
(`server/index.ts`) and the client-side reaction aggregator
(`src/components/LogList.tsx`) into Lean, and proves / refutes the
frozen specification claims about it.

Timestamps are modelled as integers (milliseconds since the epoch,
mirroring JavaScript `Date.getTime()`).  The floating-point division
`(now - ref) / MS_PER_DAY` performed by the source is modelled as exact
division in `ℚ`; for the quantities involved (integer millisecond
differences divided by `86400000` and compared with `30`) IEEE double
division decides `>= 30` identically to exact rational division, because
`30 * 86400000` is exactly representable and the quotient error is far
below the distance to the threshold.
-/

namespace Loggen

/-- `ARCHIVE_DAYS` constant from `server/index.ts`. -/
def ARCHIVE_DAYS : Int := 30

/-- `MS_PER_DAY` constant from `server/index.ts`. -/
def MS_PER_DAY : Int := 24 * 60 * 60 * 1000

/-- Milliseconds since the epoch, as in JavaScript `Date.getTime()`. -/
abbrev Timestamp := Int

/-- A row of the `LogMessage` table (a post), with the fields the
lifecycle engine reads and writes. -/
structure LogMessage where
  id : Nat
  title : String
  message : String
  author : String
  version : String
  imageUrl : Option String
  pinned : Bool
  archived : Bool
  createdAt : Timestamp
  unpinnedAt : Option Timestamp
  archivedAt : Option Timestamp
deriving DecidableEq

/-- JavaScript `String.prototype.trim`: strip leading and trailing
whitespace (modelled over the character list with Lean's whitespace
predicate, which covers the ASCII whitespace relevant here). -/
def jsTrim (s : String) : String :=
  ⟨(((s.data.dropWhile Char.isWhitespace).reverse.dropWhile Char.isWhitespace).reverse)⟩

/-- JavaScript `s || null` for an optional string: `undefined`/`null` and
the empty string are falsy and collapse to `null`. -/
def jsStrOrNull (s : Option String) : Option String :=
  match s with
  | none => none
  | some s => if s.isEmpty then none else some s

/-- JavaScript `log.unpinnedAt || log.createdAt`: a `null` date is falsy,
so the reference date is `unpinnedAt` when set, else `createdAt`. -/
def referenceDate (log : LogMessage) : Timestamp :=
  log.unpinnedAt.getD log.createdAt

/-- `shouldAutoArchive` from `server/index.ts` (lines 125–133); the
source reads the clock itself via `new Date()`, modelled here by the
explicit parameter `now`.  The division is JavaScript float division,
modelled exactly in `ℚ` (see the file docstring). -/
def shouldAutoArchive (now : Timestamp) (log : LogMessage) : Bool :=
  if log.pinned || log.archived then false
  else
    let daysSince : ℚ := ((now - referenceDate log : Int) : ℚ) / ((MS_PER_DAY : Int) : ℚ)
    decide (daysSince ≥ ((ARCHIVE_DAYS : Int) : ℚ))

/-- The `WHERE` clause of the bulk update in `autoArchiveOldPosts`
(`server/index.ts` lines 142–150), evaluated against a cutoff date:
`archived: false, pinned: false, OR [ {unpinnedAt: null, createdAt: {lt: cutoff}},
{unpinnedAt: {lt: cutoff}} ]`.  A `null` `unpinnedAt` does not satisfy the
SQL comparison `unpinnedAt < cutoff`. -/
def sweepMatches (cutoff : Timestamp) (log : LogMessage) : Bool :=
  !log.archived && !log.pinned &&
    (match log.unpinnedAt with
     | none => decide (log.createdAt < cutoff)
     | some u => decide (u < cutoff))

/-- `autoArchiveOldPosts` from `server/index.ts` (lines 136–156): the
request-triggered sweep.  `cutoffDate = now - ARCHIVE_DAYS * MS_PER_DAY`;
every matching row gets `archived = true, archivedAt = now`. -/
def autoArchiveOldPosts (now : Timestamp) (logs : List LogMessage) : List LogMessage :=
  let cutoffDate := now - ARCHIVE_DAYS * MS_PER_DAY
  logs.map (fun log =>
    if sweepMatches cutoffDate log then
      { log with archived := true, archivedAt := some now }
    else log)

/-- Result of the pin-toggle handler: the updated post plus the
transient `_unpinningOldPost` field of the JSON response. -/
structure PinResult where
  post : LogMessage
  unpinningOldPost : Bool
deriving DecidableEq

/-- The `POST /api/logs/:id/pin` handler body (`server/index.ts` lines
879–920) applied to the found row: flips `pinned`; sets
`unpinnedAt = now` when unpinning and `null` when pinning; reports
`_unpinningOldPost = willBeUnpinned && isOldPost` where `isOldPost`
compares `(now - createdAt) / MS_PER_DAY` with `ARCHIVE_DAYS`. -/
def togglePin (now : Timestamp) (log : LogMessage) : PinResult :=
  let willBeUnpinned := log.pinned
  let daysSinceCreated : ℚ := ((now - log.createdAt : Int) : ℚ) / ((MS_PER_DAY : Int) : ℚ)
  let isOldPost := decide (daysSinceCreated ≥ ((ARCHIVE_DAYS : Int) : ℚ))
  { post := { log with
      pinned := !log.pinned
      unpinnedAt := if willBeUnpinned then some now else none }
    unpinningOldPost := willBeUnpinned && isOldPost }

/-- The `POST /api/logs/:id/archive` handler body (`server/index.ts`
lines 923–948): sets `archived = true`, `archivedAt = now`,
`pinned = false`. -/
def archivePost (now : Timestamp) (log : LogMessage) : LogMessage :=
  { log with archived := true, archivedAt := some now, pinned := false }

/-- The `POST /api/logs/:id/unarchive` handler body (`server/index.ts`
lines 951–976): sets `archived = false`, `archivedAt = null`,
`unpinnedAt = now` (resetting the 30-day timer). -/
def unarchivePost (now : Timestamp) (log : LogMessage) : LogMessage :=
  { log with archived := false, archivedAt := none, unpinnedAt := some now }

/-- Error taxonomy of the request handlers, by HTTP status. -/
inductive ApiError where
  | badRequest
  | notFound
  | conflict
  | internal
deriving DecidableEq

/-- The `POST /api/logs` handler body (`server/index.ts` lines 816–843):
rejects a falsy `message` or `author`; stores `title?.trim() || ''`,
the raw `message`, and `imageUrl || null`.  The `pinned`/`archived`
columns are filled by the store defaults; the Prisma schema file is not
part of the sources, so these defaults (`false`/`false`, posts are
created active and unpinned) are modelled from the spec and from the
seeding script `prisma/seed.ts`, which writes them explicitly. -/
def createPost (nextId : Nat) (now : Timestamp) (ver : String)
    (title : Option String) (message author : String)
    (imageUrl : Option String) : Except ApiError LogMessage :=
  if message.isEmpty || author.isEmpty then .error .badRequest
  else .ok {
    id := nextId
    title := jsTrim (title.getD "")
    message := message
    author := author
    version := ver
    imageUrl := jsStrOrNull imageUrl
    pinned := false
    archived := false
    createdAt := now
    unpinnedAt := none
    archivedAt := none }

/-- The `PUT /api/logs/:id` handler body (`server/index.ts` lines
846–876) applied to the found row: rejects a falsy `message`; replaces
`title`, `message` (trimmed) and `imageUrl`, touching no lifecycle
field. -/
def editPost (log : LogMessage) (title : Option String) (message : String)
    (imageUrl : Option String) : Except ApiError LogMessage :=
  if message.isEmpty then .error .badRequest
  else .ok { log with
    title := jsTrim (title.getD "")
    message := jsTrim message
    imageUrl := jsStrOrNull imageUrl }

/-- A row of the `ReadSignature` table.  The migration
(`prisma/migrations`) declares `UNIQUE ("logId", "name")` and a foreign
key `logId → LogMessage(id)` with cascade. -/
structure ReadSignature where
  id : Nat
  name : String
  logId : Nat
  createdAt : Timestamp
deriving DecidableEq

/-- The `POST /api/logs/:id/sign` handler body (`server/index.ts` lines
979–1003) together with the store constraints it relies on: a falsy
`name` is a 400; creating the row stores `name.trim()`; a violation of
the `(logId, name)` unique index surfaces as Prisma error `P2002`,
mapped to 409 Conflict; any other store failure (such as the `logId`
foreign key when the post does not exist) falls to the generic 500. -/
def signAsRead (sigs : List ReadSignature) (postIds : List Nat)
    (nextId : Nat) (now : Timestamp) (logId : Nat) (name : String) :
    Except ApiError (List ReadSignature × ReadSignature) :=
  if name.isEmpty then .error .badRequest
  else if sigs.any (fun s => s.logId == logId && s.name == jsTrim name) then
    .error .conflict
  else if postIds.contains logId then
    let s : ReadSignature := { id := nextId, name := jsTrim name, logId := logId, createdAt := now }
    .ok (sigs ++ [s], s)
  else .error .internal

/-- A row of the `Comment` table.  `parentId = null` marks a top-level
comment; the migration declares a foreign key
`parentId → Comment(id)` (any existing comment, with no further
restriction) and cascade delete. -/
structure Comment where
  id : Nat
  message : String
  author : String
  logId : Nat
  parentId : Option Nat
  createdAt : Timestamp
deriving DecidableEq

/-- JavaScript `parentId || null` for an optional number: `undefined`,
`null` and `0` are falsy and collapse to `null`. -/
def jsNatOrNull (p : Option Nat) : Option Nat :=
  match p with
  | some 0 => none
  | x => x

/-- The `POST /api/logs/:id/comments` handler body (`server/index.ts`
lines 1006–1031) together with the store constraint it relies on: a
falsy `message` or `author` is a 400; otherwise the row is created with
`message.trim()`, `author.trim()` and `parentId: parentId || null` —
the handler itself performs no validation of `parentId`, so the only
restriction is the store's foreign key, which demands that a non-null
`parentId` reference some existing comment row (a failure falls to the
generic 500). -/
def addComment (comments : List Comment) (nextId : Nat) (now : Timestamp)
    (logId : Nat) (message author : String) (parentId : Option Nat) :
    Except ApiError (List Comment × Comment) :=
  if message.isEmpty || author.isEmpty then .error .badRequest
  else
    match jsNatOrNull parentId with
    | none =>
      let c : Comment := { id := nextId, message := jsTrim message, author := jsTrim author,
                           logId := logId, parentId := none, createdAt := now }
      .ok (comments ++ [c], c)
    | some p =>
      if comments.any (fun c => c.id == p) then
        let c : Comment := { id := nextId, message := jsTrim message, author := jsTrim author,
                             logId := logId, parentId := some p, createdAt := now }
        .ok (comments ++ [c], c)
      else .error .internal

/-- A row of the `Meeting` table, with the fields the read queries
touch. -/
structure Meeting where
  id : Nat
  title : String
  scheduledAt : Timestamp
  archived : Bool
  archivedAt : Option Timestamp
  createdAt : Timestamp
  updatedAt : Timestamp
deriving DecidableEq

/-- Insert into a list sorted by the boolean relation `le` (used to
model the store's `orderBy`). -/
def insertSorted (le : α → α → Bool) (x : α) : List α → List α
  | [] => [x]
  | y :: ys => if le x y then x :: y :: ys else y :: insertSorted le x ys

/-- Stable insertion sort by the boolean relation `le` (used to model
the store's `orderBy`). -/
def sortByLe (le : α → α → Bool) : List α → List α
  | [] => []
  | x :: xs => insertSorted le x (sortByLe le xs)

/-- The `GET /api/meetings/upcoming` handler body (`server/index.ts`
lines 323–347): `WHERE scheduledAt >= now AND archived = false`,
ordered ascending by `scheduledAt`. -/
def upcomingMeetings (now : Timestamp) (meetings : List Meeting) : List Meeting :=
  sortByLe (fun a b => decide (a.scheduledAt ≤ b.scheduledAt))
    (meetings.filter (fun m => decide (now ≤ m.scheduledAt) && !m.archived))

/-- A row of the `Reaction` table. -/
structure Reaction where
  id : Nat
  emoji : String
  logId : Nat
  createdAt : Timestamp
deriving DecidableEq

/-- An `{emoji, count}` pair produced by the aggregator. -/
structure ReactionGroup where
  emoji : String
  count : Nat
deriving DecidableEq

/-- The own enumerable properties of `Object.prototype`.  In
`groupReactions` the accumulator is a plain object literal, so a key
equal to one of these names reads a truthy inherited value through the
prototype chain: the `if (!groups[r.emoji])` guard never initialises it,
the increment lands on the inherited object, and no own property — and
hence no output pair — is ever created for such a key.  (The model
assumes an unmodified `Object.prototype`.) -/
def objectProtoProps : List String :=
  ["constructor", "hasOwnProperty", "isPrototypeOf", "propertyIsEnumerable",
   "toLocaleString", "toString", "valueOf", "__proto__",
   "__defineGetter__", "__defineSetter__", "__lookupGetter__", "__lookupSetter__"]

/-- The numeric value of a decimal digit string. -/
def digitsToNat (cs : List Char) : Nat :=
  cs.foldl (fun n c => n * 10 + (c.toNat - 48)) 0

/-- Whether a character list is the canonical decimal representation of
a natural number: all digits, nonempty, and no leading zero except for
`"0"` itself. -/
def isCanonicalNat (cs : List Char) : Bool :=
  match cs with
  | [] => false
  | [c] => c.isDigit
  | c :: rest => c.isDigit && c != '0' && rest.all (fun d => d.isDigit)

/-- Whether a string is a JavaScript array-index property key: the
canonical decimal representation of an integer in `[0, 2^32 - 1)`.
`Object.values` enumerates such keys first, in ascending numeric order,
before the remaining string keys in insertion order (ECMA-262,
`OrdinaryOwnPropertyKeys`). -/
def isArrayIndexKey (s : String) : Bool :=
  isCanonicalNat s.data && decide (digitsToNat s.data < 4294967295)

/-- One iteration of the loop body of `groupReactions`
(`src/components/LogList.tsx` lines 388–397) on the accumulator object,
represented as its own properties in insertion order: initialise
`{emoji, count: 0}` on first sight of a key, then increment; keys that
collide with `Object.prototype` properties never produce an own
property (see `objectProtoProps`). -/
def insertReaction (groups : List ReactionGroup) (e : String) : List ReactionGroup :=
  if e ∈ objectProtoProps then groups
  else if groups.any (fun g => g.emoji == e) then
    groups.map (fun g => if g.emoji == e then { g with count := g.count + 1 } else g)
  else groups ++ [{ emoji := e, count := 1 }]

/-- `groupReactions` from `src/components/LogList.tsx` (lines 388–397):
builds a plain object keyed by emoji and returns `Object.values` of it;
the enumeration order is array-index keys ascending numerically, then
the other keys in insertion order. -/
def groupReactions (reactions : List Reaction) : List ReactionGroup :=
  let groups := reactions.foldl (fun acc r => insertReaction acc r.emoji) []
  let arrayIdx := groups.filter (fun g => isArrayIndexKey g.emoji)
  let strKeys := groups.filter (fun g => !isArrayIndexKey g.emoji)
  sortByLe (fun a b => decide (digitsToNat a.emoji.data ≤ digitsToNat b.emoji.data)) arrayIdx
    ++ strKeys

/-- Written from the spec's words, for comparison with `groupReactions`:
the distinct emojis of the reaction list, ordered by the position of
each emoji's first occurrence. -/
def specEmojiOrder (reactions : List Reaction) : List String :=
  reactions.foldl (fun es r => if r.emoji ∈ es then es else es ++ [r.emoji]) []

/-- Helper for stating count properties: the count recorded for emoji
`e` in an accumulator (first matching group), `0` when absent. -/
def countIn : List ReactionGroup → String → Nat
  | [], _ => 0
  | g :: gs, e => if g.emoji == e then g.count else countIn gs e

/-- The claimed invariant: an archived post is never pinned. -/
def postInv (l : LogMessage) : Prop :=
  l.archived = true → l.pinned = false

instance (l : LogMessage) : Decidable (postInv l) := by
  unfold postInv
  infer_instance

/-- Sample active, unpinned post created at time `0`. -/
def samplePost : LogMessage :=
  { id := 1, title := "", message := "m", author := "a", version := "v",
    imageUrl := none, pinned := false, archived := false,
    createdAt := 0, unpinnedAt := none, archivedAt := none }

/-- Sample archived (and, as the invariant demands, unpinned) post. -/
def sampleArchivedPost : LogMessage :=
  { samplePost with archived := true, archivedAt := some 0 }

/-- Sample pinned post. -/
def samplePinnedPost : LogMessage :=
  { samplePost with pinned := true }

/-- Sample signature by `"Anna"` on post `1`. -/
def sampleSignature : ReadSignature :=
  { id := 1, name := "Anna", logId := 1, createdAt := 0 }

/-- Sample top-level comment on post `1`. -/
def sampleTopComment : Comment :=
  { id := 1, message := "hi", author := "a", logId := 1, parentId := none, createdAt := 0 }

/-- Sample reply to `sampleTopComment`. -/
def sampleReply : Comment :=
  { id := 2, message := "re", author := "b", logId := 1, parentId := some 1, createdAt := 0 }

/-- Sample non-archived meeting scheduled at time `0`. -/
def samplePastMeeting : Meeting :=
  { id := 1, title := "x", scheduledAt := 0, archived := false,
    archivedAt := none, createdAt := 0, updatedAt := 0 }

/-- Sample reaction whose emoji is the array-index string `"1"`. -/
def reactionOne : Reaction :=
  { id := 1, emoji := "1", logId := 1, createdAt := 0 }

/-- Sample reaction whose emoji is the array-index string `"0"`. -/
def reactionZero : Reaction :=
  { id := 2, emoji := "0", logId := 1, createdAt := 0 }

/-- Sample reaction whose emoji collides with an `Object.prototype`
property name. -/
def reactionProto : Reaction :=
  { id := 3, emoji := "toString", logId := 1, createdAt := 0 }

/-- Sample thumbs-up reaction. -/
def reactionThumb : Reaction :=
  { id := 4, emoji := "👍", logId := 1, createdAt := 0 }

end Loggen

deriving instance DecidableEq for Except

namespace Loggen

/-! ## Helper lemmas -/

/-- The rational day comparison of the source is equivalent to an
integer millisecond comparison. -/
theorem ratDays_ge_iff (a : Int) :
    (((a : ℚ) / ((MS_PER_DAY : Int) : ℚ)) ≥ ((ARCHIVE_DAYS : Int) : ℚ)) ↔
      ARCHIVE_DAYS * MS_PER_DAY ≤ a := by
  rw [ge_iff_le, le_div_iff₀ (by norm_num [MS_PER_DAY])]
  rw [show ((ARCHIVE_DAYS : Int) : ℚ) * ((MS_PER_DAY : Int) : ℚ)
        = ((ARCHIVE_DAYS * MS_PER_DAY : Int) : ℚ) by push_cast; ring]
  exact Int.cast_le

/-- `shouldAutoArchive` in integer milliseconds. -/
theorem shouldAutoArchive_eq (now : Timestamp) (log : LogMessage) :
    shouldAutoArchive now log
      = (!log.pinned && !log.archived
          && decide (ARCHIVE_DAYS * MS_PER_DAY ≤ now - referenceDate log)) := by
  unfold shouldAutoArchive
  cases hp : log.pinned <;> cases ha : log.archived <;>
    simp [hp, ha, decide_eq_decide]
  rw [← Int.cast_sub]
  exact ratDays_ge_iff _

/-- The updated row written by the pin-toggle handler. -/
theorem togglePin_post (now : Timestamp) (log : LogMessage) :
    (togglePin now log).post
      = { log with pinned := !log.pinned
                   unpinnedAt := if log.pinned then some now else none } := rfl

/-- The `_unpinningOldPost` response field in integer milliseconds. -/
theorem togglePin_signal (now : Timestamp) (log : LogMessage) :
    (togglePin now log).unpinningOldPost
      = (log.pinned && decide (ARCHIVE_DAYS * MS_PER_DAY ≤ now - log.createdAt)) := by
  unfold togglePin
  simp only
  rw [decide_eq_decide.mpr (ratDays_ge_iff (now - log.createdAt))]

/-- The sweep's `WHERE` clause at cutoff `now - 30 days`, phrased with
the archive-reference timestamp: it selects exactly the active,
unpinned posts whose reference is strictly more than 30 days old. -/
theorem sweepMatches_iff (now : Timestamp) (log : LogMessage) :
    sweepMatches (now - ARCHIVE_DAYS * MS_PER_DAY) log = true ↔
      log.archived = false ∧ log.pinned = false ∧
        ARCHIVE_DAYS * MS_PER_DAY < now - referenceDate log := by
  have key : ∀ a : Int, (a < now - ARCHIVE_DAYS * MS_PER_DAY) ↔
      (ARCHIVE_DAYS * MS_PER_DAY < now - a) := fun a => by omega
  unfold sweepMatches referenceDate
  cases hu : log.unpinnedAt <;>
    simp [Bool.and_eq_true, Bool.not_eq_true', key, and_assoc]

/-- Membership in an insertion step of the modelled `orderBy`. -/
theorem mem_insertSorted (le : α → α → Bool) (x a : α) (l : List α) :
    a ∈ insertSorted le x l ↔ a = x ∨ a ∈ l := by
  induction l with
  | nil => simp [insertSorted]
  | cons y ys ih =>
    unfold insertSorted
    by_cases h : le x y = true
    · simp [h]
    · simp only [Bool.not_eq_true] at h
      simp [h, ih]
      tauto

/-- Sorting by the modelled `orderBy` does not change membership. -/
theorem mem_sortByLe (le : α → α → Bool) (a : α) (l : List α) :
    a ∈ sortByLe le l ↔ a ∈ l := by
  induction l with
  | nil => simp [sortByLe]
  | cons x xs ih => simp [sortByLe, mem_insertSorted, ih]

/-- One aggregator step, seen on the emoji keys: a key already present
leaves the key list unchanged, a new key is appended. -/
theorem map_emoji_insertReaction (acc : List ReactionGroup) (e : String)
    (h : e ∉ objectProtoProps) :
    (insertReaction acc e).map (fun g => g.emoji)
      = if e ∈ acc.map (fun g => g.emoji) then acc.map (fun g => g.emoji)
        else acc.map (fun g => g.emoji) ++ [e] := by
  unfold insertReaction
  rw [if_neg h]
  by_cases hmem : e ∈ acc.map (fun g => g.emoji)
  · have hany : acc.any (fun g => g.emoji == e) = true := by
      rw [List.any_eq_true]
      obtain ⟨g, hg, hge⟩ := List.mem_map.mp hmem
      exact ⟨g, hg, by simp [hge]⟩
    rw [if_pos hany, if_pos hmem, List.map_map]
    apply List.map_congr_left
    intro g _
    simp only [Function.comp_apply]
    by_cases hg : (g.emoji == e) = true
    · rw [if_pos hg]
    · rw [if_neg hg]
  · have hany : acc.any (fun g => g.emoji == e) = false := by
      rw [List.any_eq_false]
      intro g hg
      simp only [beq_iff_eq]
      intro hge
      exact hmem (List.mem_map.mpr ⟨g, hg, hge⟩)
    rw [if_neg (by simp [hany]), if_neg hmem, List.map_append]
    rfl

/-- The increment step of the aggregator does not change a group's
key. -/
theorem updEmoji (e : String) (g : ReactionGroup) :
    ((if g.emoji == e then { g with count := g.count + 1 } else g) : ReactionGroup).emoji
      = g.emoji := by
  split <;> rfl

/-- The increment step of the aggregator adds one to the count of a
group keyed `e` and leaves other groups alone. -/
theorem updCount (e : String) (g : ReactionGroup) :
    ((if g.emoji == e then { g with count := g.count + 1 } else g) : ReactionGroup).count
      = g.count + (if (g.emoji == e) = true then 1 else 0) := by
  split <;> simp_all

/-- Incrementing every group keyed `e` adds one to the recorded count of
`e` exactly when some group carries that key, and changes no other
key's count. -/
theorem countIn_map_increment (e e₀ : String) (acc : List ReactionGroup) :
    countIn (acc.map (fun g => if g.emoji == e then { g with count := g.count + 1 } else g)) e₀
      = countIn acc e₀
        + (if e₀ = e ∧ acc.any (fun g => g.emoji == e) = true then 1 else 0) := by
  induction acc with
  | nil => simp [countIn]
  | cons g gs ih =>
    simp only [List.map_cons, countIn, updEmoji, updCount, List.any_cons]
    by_cases hg0 : (g.emoji == e₀) = true
    · rw [if_pos hg0, if_pos hg0]
      by_cases hge : (g.emoji == e) = true
      · have he : e₀ = e := by
          rw [beq_iff_eq] at hg0 hge
          rw [← hg0, hge]
        simp [hge, he]
      · have hne : e₀ ≠ e := by
          intro hc
          apply hge
          rw [beq_iff_eq] at hg0 ⊢
          rw [hg0, hc]
        simp [hge, hne]
    · rw [if_neg hg0, if_neg hg0, ih]
      by_cases he : e₀ = e
      · subst he
        have hge : (g.emoji == e₀) = false := by
          rw [Bool.not_eq_true] at hg0
          exact hg0
        simp only [hge, Bool.false_or]
      · simp [he]

/-- Appending a fresh group does not change the counts of keys already
present, and supplies the appended count for its own key when that key
was absent. -/
theorem countIn_append_single (acc : List ReactionGroup) (x : ReactionGroup) (e₀ : String) :
    countIn (acc ++ [x]) e₀
      = if acc.any (fun g => g.emoji == e₀) = true then countIn acc e₀
        else (if x.emoji == e₀ then x.count else 0) := by
  induction acc with
  | nil => simp [countIn]
  | cons g gs ih =>
    by_cases hg0 : (g.emoji == e₀) = true
    · simp [countIn, hg0, List.any_cons]
    · simp [countIn, hg0, List.any_cons, ih]

/-- A key no group carries has count `0`. -/
theorem countIn_eq_zero (acc : List ReactionGroup) (e₀ : String)
    (h : acc.any (fun g => g.emoji == e₀) = false) : countIn acc e₀ = 0 := by
  induction acc with
  | nil => rfl
  | cons g gs ih =>
    rw [List.any_cons, Bool.or_eq_false_iff] at h
    simp [countIn, h.1, ih h.2]

/-- One aggregator step, seen on the recorded counts. -/
theorem countIn_insertReaction (acc : List ReactionGroup) (e e₀ : String)
    (h : e ∉ objectProtoProps) :
    countIn (insertReaction acc e) e₀
      = if e₀ = e then countIn acc e₀ + 1 else countIn acc e₀ := by
  unfold insertReaction
  rw [if_neg h]
  by_cases hany : acc.any (fun g => g.emoji == e) = true
  · rw [if_pos hany, countIn_map_increment]
    by_cases he : e₀ = e
    · simp [he, hany]
    · simp [he]
  · rw [if_neg hany, countIn_append_single]
    rw [Bool.not_eq_true] at hany
    by_cases he : e₀ = e
    · subst he
      rw [hany, countIn_eq_zero acc e₀ hany]
      simp
    · by_cases h0 : acc.any (fun g => g.emoji == e₀) = true
      · simp [h0, he]
      · rw [Bool.not_eq_true] at h0
        rw [h0, countIn_eq_zero acc e₀ h0]
        have : ((({ emoji := e, count := 1 } : ReactionGroup).emoji == e₀) : Bool) = false := by
          show (e == e₀) = false
          rw [beq_eq_false_iff_ne]
          exact fun hc => he hc.symm
        simp [this, he]

/-- The aggregator loop, seen on the emoji keys: it folds the
first-occurrence key order over the input. -/
theorem build_map_emoji (rest : List Reaction) (acc : List ReactionGroup)
    (h : ∀ r ∈ rest, r.emoji ∉ objectProtoProps) :
    (rest.foldl (fun acc r => insertReaction acc r.emoji) acc).map (fun g => g.emoji)
      = rest.foldl (fun es r => if r.emoji ∈ es then es else es ++ [r.emoji])
          (acc.map (fun g => g.emoji)) := by
  induction rest generalizing acc with
  | nil => rfl
  | cons r rest ih =>
    simp only [List.foldl_cons]
    rw [ih _ (fun r hr => h r (List.mem_cons_of_mem _ hr)),
      map_emoji_insertReaction _ _ (h r (List.mem_cons_self _ _))]

/-- Membership in the first-occurrence key fold. -/
theorem mem_specFold (rest : List Reaction) (seed : List String) (e : String) :
    (e ∈ rest.foldl (fun es r => if r.emoji ∈ es then es else es ++ [r.emoji]) seed)
      ↔ e ∈ seed ∨ ∃ r ∈ rest, r.emoji = e := by
  induction rest generalizing seed with
  | nil => simp
  | cons r rest ih =>
    simp only [List.foldl_cons, ih, List.mem_cons]
    by_cases hr : r.emoji ∈ seed
    · rw [if_pos hr]
      constructor
      · rintro (hs | hrest)
        · exact Or.inl hs
        · exact Or.inr (by obtain ⟨r₀, h₀, h₁⟩ := hrest; exact ⟨r₀, Or.inr h₀, h₁⟩)
      · rintro (hs | ⟨r₀, (rfl | h₀), h₁⟩)
        · exact Or.inl hs
        · exact Or.inl (h₁ ▸ hr)
        · exact Or.inr ⟨r₀, h₀, h₁⟩
    · rw [if_neg hr]
      simp only [List.mem_append, List.mem_singleton]
      constructor
      · rintro ((hs | hh) | hrest)
        · exact Or.inl hs
        · exact Or.inr ⟨r, Or.inl rfl, hh.symm⟩
        · exact Or.inr (by obtain ⟨r₀, h₀, h₁⟩ := hrest; exact ⟨r₀, Or.inr h₀, h₁⟩)
      · rintro (hs | ⟨r₀, (rfl | h₀), h₁⟩)
        · exact Or.inl (Or.inl hs)
        · exact Or.inl (Or.inr h₁.symm)
        · exact Or.inr ⟨r₀, h₀, h₁⟩

/-- The first-occurrence key fold keeps the key list duplicate-free. -/
theorem nodup_specFold (rest : List Reaction) (seed : List String)
    (h : seed.Nodup) :
    (rest.foldl (fun es r => if r.emoji ∈ es then es else es ++ [r.emoji]) seed).Nodup := by
  induction rest generalizing seed with
  | nil => exact h
  | cons r rest ih =>
    simp only [List.foldl_cons]
    apply ih
    by_cases hr : r.emoji ∈ seed
    · rw [if_pos hr]
      exact h
    · rw [if_neg hr]
      simp [List.nodup_append, h, hr]

/-- A group list with duplicate-free keys records each member's own
count. -/
theorem countIn_of_mem (acc : List ReactionGroup) (g : ReactionGroup)
    (hnd : (acc.map (fun g => g.emoji)).Nodup) (hg : g ∈ acc) :
    countIn acc g.emoji = g.count := by
  induction acc with
  | nil => cases hg
  | cons a as ih =>
    rw [List.map_cons, List.nodup_cons] at hnd
    rcases List.mem_cons.mp hg with rfl | hmem
    · simp [countIn]
    · have hne : (a.emoji == g.emoji) = false := by
        rw [beq_eq_false_iff_ne]
        intro hc
        exact hnd.1 (hc ▸ List.mem_map.mpr ⟨g, hmem, rfl⟩)
      simp only [countIn, hne, Bool.false_eq_true, if_false]
      exact ih hnd.2 hmem

/-- The aggregator step keeps the key list duplicate-free. -/
theorem nodup_insertReaction (acc : List ReactionGroup) (e : String)
    (h : e ∉ objectProtoProps) (hnd : (acc.map (fun g => g.emoji)).Nodup) :
    ((insertReaction acc e).map (fun g => g.emoji)).Nodup := by
  rw [map_emoji_insertReaction _ _ h]
  by_cases hmem : e ∈ acc.map (fun g => g.emoji)
  · rw [if_pos hmem]
    exact hnd
  · rw [if_neg hmem]
    simp [List.nodup_append, hnd, hmem]

/-- The aggregator loop, seen on the counts: every produced group counts
the occurrences of its key in the consumed input, on top of what the
accumulator already recorded. -/
theorem build_count (rest : List Reaction) (acc : List ReactionGroup)
    (h : ∀ r ∈ rest, r.emoji ∉ objectProtoProps)
    (hnd : (acc.map (fun g => g.emoji)).Nodup) :
    ∀ g ∈ rest.foldl (fun acc r => insertReaction acc r.emoji) acc,
      g.count = countIn acc g.emoji
        + (rest.filter (fun r => r.emoji == g.emoji)).length := by
  induction rest generalizing acc with
  | nil =>
    intro g hg
    simp [countIn_of_mem acc g hnd hg]
  | cons r rest ih =>
    intro g hg
    simp only [List.foldl_cons] at hg
    have hstep := ih (insertReaction acc r.emoji)
      (fun r hr => h r (List.mem_cons_of_mem _ hr))
      (nodup_insertReaction acc r.emoji (h r (List.mem_cons_self _ _)) hnd) g hg
    rw [countIn_insertReaction acc r.emoji g.emoji (h r (List.mem_cons_self _ _))] at hstep
    rw [hstep]
    by_cases he : g.emoji = r.emoji
    · have : (r.emoji == g.emoji) = true := by rw [beq_iff_eq, he]
      simp [List.filter_cons, this, he]
      omega
    · have : (r.emoji == g.emoji) = false := by
        rw [beq_eq_false_iff_ne]
        exact fun hc => he hc.symm
      simp [List.filter_cons, this, he]

/-- When no emoji in the input is an array-index key and none collides
with `Object.prototype`, `Object.values` enumeration adds nothing: the
aggregator returns the accumulator it built, in insertion order. -/
theorem groupReactions_eq_build (rs : List Reaction)
    (hA : ∀ r ∈ rs, isArrayIndexKey r.emoji = false)
    (hP : ∀ r ∈ rs, r.emoji ∉ objectProtoProps) :
    groupReactions rs = rs.foldl (fun acc r => insertReaction acc r.emoji) [] := by
  unfold groupReactions
  have hemoji : ∀ g ∈ rs.foldl (fun acc r => insertReaction acc r.emoji) [],
      isArrayIndexKey g.emoji = false := by
    intro g hg
    have hmem : g.emoji ∈ (rs.foldl (fun acc r => insertReaction acc r.emoji) []).map
        (fun g => g.emoji) := List.mem_map.mpr ⟨g, hg, rfl⟩
    rw [build_map_emoji rs [] hP] at hmem
    rcases (mem_specFold rs _ _).mp hmem with hc | ⟨r, hr, hre⟩
    · cases hc
    · exact hre ▸ hA r hr
  have h1 : (rs.foldl (fun acc r => insertReaction acc r.emoji) []).filter
      (fun g => isArrayIndexKey g.emoji) = [] := by
    rw [List.filter_eq_nil_iff]
    intro g hg
    simp [hemoji g hg]
  have h2 : (rs.foldl (fun acc r => insertReaction acc r.emoji) []).filter
      (fun g => !isArrayIndexKey g.emoji) = rs.foldl (fun acc r => insertReaction acc r.emoji) [] := by
    rw [List.filter_eq_self]
    intro g hg
    simp [hemoji g hg]
  simp only [h1, h2]
  rfl

/-- C9: for emoji inputs (no array-index keys, no `Object.prototype`
collisions — true of all actual emoji) the aggregator produces exactly
one `{emoji, count}` pair per distinct emoji of the input, counts equal
to the occurrence counts, ordered by first occurrence. -/
theorem groupReactions_first_occurrence_spec (rs : List Reaction)
    (hA : ∀ r ∈ rs, isArrayIndexKey r.emoji = false)
    (hP : ∀ r ∈ rs, r.emoji ∉ objectProtoProps) :
    (groupReactions rs).map (fun g => g.emoji) = specEmojiOrder rs ∧
    ((groupReactions rs).map (fun g => g.emoji)).Nodup ∧
    (∀ e, e ∈ (groupReactions rs).map (fun g => g.emoji) ↔ ∃ r ∈ rs, r.emoji = e) ∧
    (∀ g ∈ groupReactions rs, g.count = (rs.filter (fun r => r.emoji == g.emoji)).length) := by
  rw [groupReactions_eq_build rs hA hP]
  have hmap := build_map_emoji rs [] hP
  simp only [List.map_nil] at hmap
  refine ⟨hmap, ?_, ?_, ?_⟩
  · rw [hmap]
    exact nodup_specFold rs [] List.nodup_nil
  · intro e
    rw [hmap, mem_specFold]
    simp
  · intro g hg
    have := build_count rs [] hP List.nodup_nil g hg
    simpa [countIn] using this

/-- C9 counterexample: two reactions with the array-index emojis `"1"`
then `"0"` come back numerically sorted, not in first-occurrence order,
and a reaction whose emoji is `"toString"` produces no pair at all. -/
theorem groupReactions_order_cex :
    groupReactions [reactionOne, reactionZero]
        = [{ emoji := "0", count := 1 }, { emoji := "1", count := 1 }] ∧
    specEmojiOrder [reactionOne, reactionZero] = ["1", "0"] ∧
    groupReactions [reactionProto] = [] := by
  decide

/-- C9 witness: three thumbs-up reactions aggregate to a single pair
with count 3, via `groupReactions_first_occurrence_spec`. -/
theorem groupReactions_first_occurrence_spec_witness :
    ((groupReactions [reactionThumb, reactionThumb, reactionThumb]).map (fun g => g.emoji)
        = specEmojiOrder [reactionThumb, reactionThumb, reactionThumb]) ∧
    ((groupReactions [reactionThumb, reactionThumb, reactionThumb]).map (fun g => g.emoji)).Nodup ∧
    (∀ e, e ∈ (groupReactions [reactionThumb, reactionThumb, reactionThumb]).map (fun g => g.emoji)
        ↔ ∃ r ∈ [reactionThumb, reactionThumb, reactionThumb], r.emoji = e) ∧
    (∀ g ∈ groupReactions [reactionThumb, reactionThumb, reactionThumb],
      g.count = ([reactionThumb, reactionThumb, reactionThumb].filter
        (fun r => r.emoji == g.emoji)).length) :=
  groupReactions_first_occurrence_spec [reactionThumb, reactionThumb, reactionThumb]
    (by decide) (by decide)

/-- C3: `togglePin` flips `pinned`; unpinning stamps `unpinnedAt = now`
and pinning clears it; the `_unpinningOldPost` signal is true exactly
when the post was pinned and its `createdAt` is 30 or more days in the
past; no other field changes. -/
theorem togglePin_flips_and_stamps (now : Timestamp) (l : LogMessage) :
    (togglePin now l).post.pinned = !l.pinned ∧
    (togglePin now l).post.unpinnedAt = (if l.pinned then some now else none) ∧
    ((togglePin now l).unpinningOldPost = true ↔
      l.pinned = true ∧ ARCHIVE_DAYS * MS_PER_DAY ≤ now - l.createdAt) ∧
    (togglePin now l).post.id = l.id ∧
    (togglePin now l).post.title = l.title ∧
    (togglePin now l).post.message = l.message ∧
    (togglePin now l).post.author = l.author ∧
    (togglePin now l).post.version = l.version ∧
    (togglePin now l).post.imageUrl = l.imageUrl ∧
    (togglePin now l).post.createdAt = l.createdAt ∧
    (togglePin now l).post.archived = l.archived ∧
    (togglePin now l).post.archivedAt = l.archivedAt := by
  refine ⟨rfl, rfl, ?_, rfl, rfl, rfl, rfl, rfl, rfl, rfl, rfl, rfl⟩
  rw [togglePin_signal]
  simp [Bool.and_eq_true]

/-- C7: `unarchive` clears `archived` and `archivedAt`, restarts the
countdown by stamping `unpinnedAt = now`, and changes nothing else. -/
theorem unarchive_resets_countdown (now : Timestamp) (l : LogMessage) :
    (unarchivePost now l).archived = false ∧
    (unarchivePost now l).archivedAt = none ∧
    (unarchivePost now l).unpinnedAt = some now ∧
    (unarchivePost now l).id = l.id ∧
    (unarchivePost now l).title = l.title ∧
    (unarchivePost now l).message = l.message ∧
    (unarchivePost now l).author = l.author ∧
    (unarchivePost now l).version = l.version ∧
    (unarchivePost now l).imageUrl = l.imageUrl ∧
    (unarchivePost now l).pinned = l.pinned ∧
    (unarchivePost now l).createdAt = l.createdAt :=
  ⟨rfl, rfl, rfl, rfl, rfl, rfl, rfl, rfl, rfl, rfl, rfl⟩

/-- C8 (amended): a second sweep at the same current time changes
nothing — the sweep is idempotent when no time passes between the two
runs. -/
theorem autoArchiveSweep_idempotent_same_time (now : Timestamp) (logs : List LogMessage) :
    autoArchiveOldPosts now (autoArchiveOldPosts now logs) = autoArchiveOldPosts now logs := by
  unfold autoArchiveOldPosts
  rw [List.map_map]
  apply List.map_congr_left
  intro l _
  simp only [Function.comp_apply]
  by_cases hm : sweepMatches (now - ARCHIVE_DAYS * MS_PER_DAY) l = true
  · rw [if_pos hm]
    have harch : sweepMatches (now - ARCHIVE_DAYS * MS_PER_DAY)
        { l with archived := true, archivedAt := some now } = false := rfl
    rw [if_neg (by simp [harch])]
  · rw [if_neg hm, if_neg hm]

/-- C8 counterexample: running the sweep a second time at a later
current time is not a no-op — a post that was exactly at the 30-day
boundary on the first run gets archived by the second run. -/
theorem autoArchiveSweep_later_second_run_cex :
    autoArchiveOldPosts (30 * MS_PER_DAY) [samplePost] = [samplePost] ∧
    (30 * MS_PER_DAY : Int) ≤ 30 * MS_PER_DAY + MS_PER_DAY ∧
    autoArchiveOldPosts (30 * MS_PER_DAY + MS_PER_DAY)
        (autoArchiveOldPosts (30 * MS_PER_DAY) [samplePost])
      ≠ autoArchiveOldPosts (30 * MS_PER_DAY) [samplePost] := by
  decide

/-- C10 (amended): the eligibility predicate `shouldAutoArchive` and the
sweep's `WHERE` clause agree everywhere except exactly at the 30-day
boundary, where the predicate (`>=`) selects the post but the clause
(strict `<`) does not. -/
theorem shouldAutoArchive_agrees_with_sweep_filter (now : Timestamp) (log : LogMessage) :
    shouldAutoArchive now log = true ↔
      (sweepMatches (now - ARCHIVE_DAYS * MS_PER_DAY) log = true ∨
        (log.archived = false ∧ log.pinned = false ∧
          now - referenceDate log = ARCHIVE_DAYS * MS_PER_DAY)) := by
  rw [shouldAutoArchive_eq, sweepMatches_iff]
  simp only [Bool.and_eq_true, Bool.not_eq_true', decide_eq_true_eq]
  constructor
  · rintro ⟨⟨h1, h2⟩, h3⟩
    rcases lt_or_eq_of_le h3 with hlt | heq
    · exact Or.inl ⟨h2, h1, hlt⟩
    · exact Or.inr ⟨h2, h1, heq.symm⟩
  · rintro (⟨h1, h2, h3⟩ | ⟨h1, h2, h3⟩)
    · exact ⟨⟨h2, h1⟩, le_of_lt h3⟩
    · exact ⟨⟨h2, h1⟩, le_of_eq h3.symm⟩

/-- C10 counterexample: a post whose reference timestamp is exactly 30
days old is selected by `shouldAutoArchive` but not by the bulk
update's `WHERE` clause. -/
theorem shouldAutoArchive_sweep_boundary_cex :
    shouldAutoArchive (30 * MS_PER_DAY) samplePost = true ∧
    sweepMatches ((30 * MS_PER_DAY : Int) - ARCHIVE_DAYS * MS_PER_DAY) samplePost = false := by
  refine ⟨?_, by decide⟩
  rw [shouldAutoArchive_eq]
  decide

/-- C2 (amended): the sweep archives (stamping `archivedAt = now`) each
active, unpinned post whose reference timestamp — `unpinnedAt` if set,
else `createdAt` — is strictly more than 30 days old, and leaves every
other post (pinned, already archived, or 30 days old or younger,
including exactly 30 days) unchanged. -/
theorem autoArchiveSweep_archives_iff (now : Timestamp) (logs : List LogMessage)
    (i : Nat) (l l' : LogMessage)
    (h1 : logs[i]? = some l)
    (h2 : (autoArchiveOldPosts now logs)[i]? = some l') :
    (l.archived = false ∧ l.pinned = false ∧
        ARCHIVE_DAYS * MS_PER_DAY < now - referenceDate l →
      l' = { l with archived := true, archivedAt := some now }) ∧
    (l.archived = true ∨ l.pinned = true ∨ now - referenceDate l ≤ ARCHIVE_DAYS * MS_PER_DAY →
      l' = l) := by
  unfold autoArchiveOldPosts at h2
  rw [List.getElem?_map, h1] at h2
  rw [show ∀ (f : LogMessage → LogMessage), Option.map f (some l) = some (f l) from
    fun f => rfl] at h2
  have hf : l' = (if sweepMatches (now - ARCHIVE_DAYS * MS_PER_DAY) l = true
      then { l with archived := true, archivedAt := some now } else l) := by
    cases h2
    rfl
  constructor
  · intro hcond
    rw [hf, if_pos ((sweepMatches_iff now l).mpr hcond)]
  · intro hcond
    rw [hf, if_neg]
    intro hm
    have hsel := (sweepMatches_iff now l).mp hm
    rcases hcond with hc | hc | hc
    · rw [hsel.1] at hc
      cases hc
    · rw [hsel.2.1] at hc
      cases hc
    · exact absurd hsel.2.2 (not_lt.mpr hc)

/-- C2 witness for `autoArchiveSweep_archives_iff`: a post one
millisecond past the 30-day boundary is archived in place, a pinned
post is untouched. -/
theorem autoArchiveSweep_archives_iff_witness :
    (({ samplePost with
          archived := true
          archivedAt := some (30 * MS_PER_DAY + 1) } : LogMessage)
        = { samplePost with archived := true, archivedAt := some (30 * MS_PER_DAY + 1) }) ∧
    samplePinnedPost = samplePinnedPost :=
  ⟨(autoArchiveSweep_archives_iff (30 * MS_PER_DAY + 1) [samplePost] 0 samplePost
      { samplePost with archived := true, archivedAt := some (30 * MS_PER_DAY + 1) }
      (by decide) (by decide)).1 (by decide),
   (autoArchiveSweep_archives_iff 0 [samplePinnedPost] 0 samplePinnedPost samplePinnedPost
      (by decide) (by decide)).2 (by decide)⟩

/-- C2 counterexample: a post whose reference timestamp is exactly 30
days old satisfies the claim's `now − reference ≥ 30 days` eligibility
but the sweep leaves it unchanged (the `WHERE` clause is strict). -/
theorem autoArchiveSweep_boundary_cex :
    samplePost.archived = false ∧ samplePost.pinned = false ∧
    (30 * MS_PER_DAY : Int) - referenceDate samplePost = ARCHIVE_DAYS * MS_PER_DAY ∧
    autoArchiveOldPosts (30 * MS_PER_DAY) [samplePost] = [samplePost] := by
  decide

/-- C1 (amended): every operation preserves `archived ⇒ not pinned`,
except that `togglePin` preserves it only for a non-archived target —
the pin handler does not guard against pinning an archived post.
Creation establishes the invariant; archive and unarchive enforce it
outright; edit and the sweep preserve it. -/
theorem lifecycle_archived_never_pinned (now : Timestamp) (l : LogMessage)
    (nextId : Nat) (ver : String) (title : Option String) (msg author : String)
    (img : Option String) (logs : List LogMessage) :
    (∀ l₀, createPost nextId now ver title msg author img = .ok l₀ → postInv l₀) ∧
    (postInv l → ∀ l₀, editPost l title msg img = .ok l₀ → postInv l₀) ∧
    postInv (archivePost now l) ∧
    postInv (unarchivePost now l) ∧
    (l.archived = false → postInv (togglePin now l).post) ∧
    ((∀ l₀ ∈ logs, postInv l₀) → ∀ l₀ ∈ autoArchiveOldPosts now logs, postInv l₀) := by
  refine ⟨?_, ?_, ?_, ?_, ?_, ?_⟩
  · intro l₀ h
    unfold createPost at h
    split at h
    · cases h
    · cases h
      intro hc
      cases hc
  · intro hinv l₀ h
    unfold editPost at h
    split at h
    · cases h
    · cases h
      exact hinv
  · intro _
    rfl
  · intro hc
    cases hc
  · intro ha hc
    have : l.archived = true := hc
    rw [ha] at this
    cases this
  · intro hinv l₀ hl₀
    unfold autoArchiveOldPosts at hl₀
    obtain ⟨l₁, hl₁, heq⟩ := List.mem_map.mp hl₀
    by_cases hm : sweepMatches (now - ARCHIVE_DAYS * MS_PER_DAY) l₁ = true
    · rw [if_pos hm] at heq
      intro _
      rw [← heq]
      show l₁.pinned = false
      exact ((sweepMatches_iff now l₁).mp hm).2.1
    · rw [if_neg hm] at heq
      exact heq ▸ hinv l₁ hl₁

/-- C1 witness for `lifecycle_archived_never_pinned`: the invariant
after concrete create, edit, archive, unarchive, pin-toggle and sweep
calls. -/
theorem lifecycle_archived_never_pinned_witness :
    postInv samplePost ∧
    postInv { samplePost with message := "m2" } ∧
    postInv (archivePost 5 samplePinnedPost) ∧
    postInv (unarchivePost 5 sampleArchivedPost) ∧
    postInv (togglePin 5 samplePost).post ∧
    (∀ l₀ ∈ autoArchiveOldPosts (30 * MS_PER_DAY + 1) [samplePost], postInv l₀) :=
  ⟨(lifecycle_archived_never_pinned 0 samplePost 1 "v" none "m" "a" none []).1
      samplePost (by decide),
   (lifecycle_archived_never_pinned 0 samplePost 1 "v" none "m2" "a" none []).2.1
      (by decide) { samplePost with message := "m2" } (by decide),
   (lifecycle_archived_never_pinned 5 samplePinnedPost 1 "v" none "m" "a" none []).2.2.1,
   (lifecycle_archived_never_pinned 5 sampleArchivedPost 1 "v" none "m" "a" none []).2.2.2.1,
   (lifecycle_archived_never_pinned 5 samplePost 1 "v" none "m" "a" none []).2.2.2.2.1
      (by decide),
   (lifecycle_archived_never_pinned (30 * MS_PER_DAY + 1) samplePost 1 "v" none "m" "a" none
      [samplePost]).2.2.2.2.2 (by decide)⟩

/-- C1 counterexample: toggling the pin of an archived (invariant-
satisfying) post yields a post that is archived and pinned at once —
the handler does not check `archived`. -/
theorem togglePin_archived_cex :
    postInv sampleArchivedPost ∧
    (togglePin 0 sampleArchivedPost).post.archived = true ∧
    (togglePin 0 sampleArchivedPost).post.pinned = true := by
  refine ⟨?_, rfl, rfl⟩
  intro _
  rfl

/-- C4 (amended): the "upcoming meetings" query returns exactly the
non-archived meetings whose `scheduledAt` is at or after the current
time — a meeting whose `scheduledAt` has passed is excluded even when
it is not archived. -/
theorem upcomingMeetings_membership (now : Timestamp) (ms : List Meeting) (m : Meeting) :
    m ∈ upcomingMeetings now ms ↔ m ∈ ms ∧ m.archived = false ∧ now ≤ m.scheduledAt := by
  unfold upcomingMeetings
  rw [mem_sortByLe, List.mem_filter]
  simp only [Bool.and_eq_true, Bool.not_eq_true', decide_eq_true_eq]
  tauto

/-- C4 counterexample: a non-archived meeting scheduled in the past is
not returned by the upcoming-meetings query. -/
theorem upcomingMeetings_past_cex :
    samplePastMeeting.archived = false ∧ samplePastMeeting.scheduledAt < 1 ∧
    upcomingMeetings 1 [samplePastMeeting] = [] := by
  decide

/-- C5 (amended): `addComment` validates only that `message` and
`author` are non-blank; a provided `parentId` is accepted whenever it
references any existing comment — top-level or reply, of any post — and
only a dangling `parentId` fails (as a generic store error, not a
validation error). -/
theorem addComment_accepts_any_existing_parent (comments : List Comment) (nextId : Nat)
    (now : Timestamp) (logId : Nat) (msg author : String) (parentId : Option Nat) :
    (msg = "" ∨ author = "" →
      addComment comments nextId now logId msg author parentId = .error .badRequest) ∧
    (msg ≠ "" → author ≠ "" → jsNatOrNull parentId = none →
      addComment comments nextId now logId msg author parentId
        = .ok (comments ++ [{ id := nextId, message := jsTrim msg, author := jsTrim author,
                              logId := logId, parentId := none, createdAt := now }],
               { id := nextId, message := jsTrim msg, author := jsTrim author,
                 logId := logId, parentId := none, createdAt := now })) ∧
    (∀ p, msg ≠ "" → author ≠ "" → jsNatOrNull parentId = some p →
      ((∃ c ∈ comments, c.id = p) →
        addComment comments nextId now logId msg author parentId
          = .ok (comments ++ [{ id := nextId, message := jsTrim msg, author := jsTrim author,
                                logId := logId, parentId := some p, createdAt := now }],
                 { id := nextId, message := jsTrim msg, author := jsTrim author,
                   logId := logId, parentId := some p, createdAt := now })) ∧
      ((∀ c ∈ comments, c.id ≠ p) →
        addComment comments nextId now logId msg author parentId = .error .internal)) := by
  refine ⟨?_, ?_, ?_⟩
  · intro h
    unfold addComment
    rw [if_pos]
    rcases h with h | h
    · rw [Bool.or_eq_true]
      exact Or.inl ((String.isEmpty_iff msg).mpr h)
    · rw [Bool.or_eq_true]
      exact Or.inr ((String.isEmpty_iff author).mpr h)
  · intro h1 h2 hp
    unfold addComment
    rw [if_neg (by simp [String.isEmpty_iff, h1, h2]), hp]
  · intro p h1 h2 hp
    constructor
    · intro hex
      unfold addComment
      rw [if_neg (by simp [String.isEmpty_iff, h1, h2]), hp]
      have hany : comments.any (fun c => c.id == p) = true := by
        rw [List.any_eq_true]
        obtain ⟨c, hc, hcp⟩ := hex
        exact ⟨c, hc, by simp [hcp]⟩
      simp [hany]
    · intro hall
      unfold addComment
      rw [if_neg (by simp [String.isEmpty_iff, h1, h2]), hp]
      have hany : comments.any (fun c => c.id == p) = false := by
        rw [List.any_eq_false]
        intro c hc
        simpa using hall c hc
      simp [hany]

/-- C5 witness for `addComment_accepts_any_existing_parent`: a blank
message is rejected, a top-level comment and a reply with an existing
parent are created, a dangling parent fails. -/
theorem addComment_accepts_any_existing_parent_witness :
    addComment [] 1 0 1 "" "a" none = .error .badRequest ∧
    addComment [] 1 0 1 "hi" "a" none = .ok ([sampleTopComment], sampleTopComment) ∧
    addComment [sampleTopComment] 2 0 1 "re" "b" (some 1)
      = .ok ([sampleTopComment, sampleReply], sampleReply) ∧
    addComment [sampleTopComment] 2 0 1 "re" "b" (some 9) = .error .internal :=
  ⟨(addComment_accepts_any_existing_parent [] 1 0 1 "" "a" none).1 (Or.inl rfl),
   (addComment_accepts_any_existing_parent [] 1 0 1 "hi" "a" none).2.1
      (by decide) (by decide) rfl,
   ((addComment_accepts_any_existing_parent [sampleTopComment] 2 0 1 "re" "b" (some 1)).2.2
      1 (by decide) (by decide) rfl).1 (by decide),
   ((addComment_accepts_any_existing_parent [sampleTopComment] 2 0 1 "re" "b" (some 9)).2.2
      9 (by decide) (by decide) rfl).2 (by decide)⟩

/-- C5 counterexample: a reply whose `parentId` is the id of another
reply is accepted and stored, not rejected. -/
theorem addComment_reply_of_reply_cex :
    sampleReply.parentId = some sampleTopComment.id ∧
    addComment [sampleTopComment, sampleReply] 3 0 1 "rr" "c" (some sampleReply.id)
      = .ok ([sampleTopComment, sampleReply,
              { id := 3, message := "rr", author := "c", logId := 1,
                parentId := some 2, createdAt := 0 }],
             { id := 3, message := "rr", author := "c", logId := 1,
               parentId := some 2, createdAt := 0 }) := by
  decide

/-- C6 (amended): signing stores the trimmed name and is unique per
`(postId, trimmed name)`, case-sensitively: a duplicate of the trimmed
name is a Conflict distinct from other failures, and a name that
differs after trimming succeeds. -/
theorem signAsRead_trimmed_uniqueness (sigs : List ReadSignature) (postIds : List Nat)
    (nextId : Nat) (now : Timestamp) (logId : Nat) (name : String) :
    (name = "" → signAsRead sigs postIds nextId now logId name = .error .badRequest) ∧
    (name ≠ "" → (∃ s ∈ sigs, s.logId = logId ∧ s.name = jsTrim name) →
      signAsRead sigs postIds nextId now logId name = .error .conflict) ∧
    (name ≠ "" → (∀ s ∈ sigs, ¬(s.logId = logId ∧ s.name = jsTrim name)) → logId ∈ postIds →
      signAsRead sigs postIds nextId now logId name
        = .ok (sigs ++ [{ id := nextId, name := jsTrim name, logId := logId, createdAt := now }],
               { id := nextId, name := jsTrim name, logId := logId, createdAt := now })) := by
  refine ⟨?_, ?_, ?_⟩
  · intro h
    unfold signAsRead
    rw [if_pos ((String.isEmpty_iff name).mpr h)]
  · intro hne hex
    unfold signAsRead
    rw [if_neg (fun hc => hne ((String.isEmpty_iff name).mp hc))]
    have hany : sigs.any (fun s => s.logId == logId && s.name == jsTrim name) = true := by
      rw [List.any_eq_true]
      obtain ⟨s, hs, h1, h2⟩ := hex
      exact ⟨s, hs, by simp [h1, h2]⟩
    rw [if_pos hany]
  · intro hne hall hmem
    unfold signAsRead
    rw [if_neg (fun hc => hne ((String.isEmpty_iff name).mp hc))]
    have hany : ¬sigs.any (fun s => s.logId == logId && s.name == jsTrim name) = true := by
      rw [List.any_eq_true]
      rintro ⟨s, hs, hb⟩
      rw [Bool.and_eq_true, beq_iff_eq, beq_iff_eq] at hb
      exact hall s hs hb
    rw [if_neg hany, if_pos (List.elem_iff.mpr hmem)]

/-- C6 witness for `signAsRead_trimmed_uniqueness`: blank name rejected;
re-signing with the exact same name is a Conflict; a different
(trimmed) name succeeds. -/
theorem signAsRead_trimmed_uniqueness_witness :
    signAsRead [] [] 1 0 1 "" = .error .badRequest ∧
    signAsRead [sampleSignature] [1] 2 1 1 "Anna" = .error .conflict ∧
    signAsRead [sampleSignature] [1] 2 1 1 "Bob"
      = .ok ([sampleSignature, { id := 2, name := "Bob", logId := 1, createdAt := 1 }],
             { id := 2, name := "Bob", logId := 1, createdAt := 1 }) :=
  ⟨(signAsRead_trimmed_uniqueness [] [] 1 0 1 "").1 rfl,
   (signAsRead_trimmed_uniqueness [sampleSignature] [1] 2 1 1 "Anna").2.1
      (by decide) (by decide),
   (signAsRead_trimmed_uniqueness [sampleSignature] [1] 2 1 1 "Bob").2.2
      (by decide) (by decide) (by decide)⟩

/-- C6 counterexample: `" Anna"` and `"Anna"` are different names, yet
signing with `" Anna"` after `"Anna"` is rejected as a Conflict —
uniqueness is checked on the trimmed name, so name matching is not
exact on the submitted string. -/
theorem signAsRead_distinct_name_conflict_cex :
    signAsRead [] [1] 1 0 1 "Anna" = .ok ([sampleSignature], sampleSignature) ∧
    (" Anna" : String) ≠ "Anna" ∧
    signAsRead [sampleSignature] [1] 2 1 1 " Anna" = .error .conflict := by
  decide

end Loggen
